import Mathlib

/-!
# Verification of the To-Do-List app core (src/assets/js/script.js)

Shallow embedding of the single script of the repository. The DOM task list
is modelled as a `List Task` (each `<li>` contributes its `<span>` text and
whether it carries the `completed` class); the text input is a `String`;
`localStorage` under the fixed key `'tasks'` is modelled at the level of the
parsed JSON value: `Option Json`, `none` when the key is absent.
`JSON.stringify`/`JSON.parse` are the platform's inverse pair on JSON values,
so storing the parsed value is faithful for every payload that parses;
a stored string on which `JSON.parse` throws a `SyntaxError` is below this
model's level of abstraction and is discussed where relevant.

JavaScript dynamic semantics that the script relies on are embedded
explicitly: truthiness (`x || []`), property access on arbitrary values
(`task.text`, throwing `TypeError` on `null`, yielding `undefined` on
primitives), template-literal stringification of `task.text`, and the DOM
`insertBefore` move algorithm (including the reference-child adjustment when
a node is inserted before itself).
-/

namespace TodoApp

/-- A task item of the DOM list: its `<span>` text and whether the `<li>`
has the `completed` class. -/
structure Task where
  text : String
  completed : Bool
deriving DecidableEq, Repr

/-- Parsed JSON values, the results `JSON.parse` can produce. Object fields
are listed as parsed (after `JSON.parse`, keys are unique, last duplicate
winning during the parse itself). -/
inductive Json where
  | null : Json
  | bool : Bool → Json
  | num : Int → Json
  | str : String → Json
  | arr : List Json → Json
  | obj : List (String × Json) → Json
deriving Repr

/-- Errors the script can throw (uncaught): `TypeError` from calling
`forEach` on a non-array or reading a property of `null`. -/
inductive JsError where
  | typeError : JsError
deriving DecidableEq, Repr

/-- JavaScript truthiness of a parsed JSON value (`x || []`). -/
def truthy : Json → Bool
  | .null => false
  | .bool b => b
  | .num n => n ≠ 0
  | .str s => s ≠ ""
  | .arr _ => true
  | .obj _ => true

mutual

/-- JavaScript string conversion, as applied by the template literal
`` `<span>${task.text}</span>` `` to a defined value. -/
def jsToString : Json → String
  | .null => "null"
  | .bool b => if b then "true" else "false"
  | .num n => toString n
  | .str s => s
  | .arr l => jsArrJoin l
  | .obj _ => "[object Object]"

/-- JavaScript `Array.prototype.toString` = `join(",")`, rendering `null` entries as
the empty string. -/
def jsArrJoin : List Json → String
  | [] => ""
  | [Json.null] => ""
  | [v] => jsToString v
  | Json.null :: vs => "," ++ jsArrJoin vs
  | v :: vs => jsToString v ++ "," ++ jsArrJoin vs

end

/-- JavaScript property read `v.name` on a parsed JSON value: throws
`TypeError` on `null`, yields the field on objects (`none` = `undefined`
when absent), and `undefined` on every other value. -/
def jsGetProp (v : Json) (name : String) : Except JsError (Option Json) :=
  match v with
  | .null => .error .typeError
  | .obj fields => .ok ((fields.find? (fun p => p.1 = name)).map (fun p => p.2))
  | _ => .ok none

/-- Template-literal rendering of a property read result (`undefined`
renders as `"undefined"`). -/
def jsPropToString : Option Json → String
  | none => "undefined"
  | some v => jsToString v

/-- ECMAScript `WhiteSpace` and `LineTerminator` code points, the characters
`String.prototype.trim` strips. -/
def isJsWhitespace (c : Char) : Bool :=
  c == '\u0009' || c == '\u000A' || c == '\u000B' || c == '\u000C' || c == '\u000D' ||
  c == '\u0020' || c == '\u00A0' || c == '\u1680' ||
  ('\u2000' ≤ c && c ≤ '\u200A') ||
  c == '\u2028' || c == '\u2029' || c == '\u202F' || c == '\u205F' ||
  c == '\u3000' || c == '\uFEFF'

/-- JavaScript `String.prototype.trim`: strip leading and trailing ECMAScript
whitespace. -/
def jsTrim (s : String) : String :=
  ⟨((s.data.dropWhile isJsWhitespace).reverse.dropWhile isJsWhitespace).reverse⟩

/-- The state of the page: the DOM task list, the value of `taskInput`,
and `localStorage['tasks']` (parsed level, `none` = key absent). -/
structure AppState where
  tasks : List Task
  input : String
  store : Option Json
deriving Repr

/-- A DOM event as `addTask` inspects it: `key` is `some k` for a keyboard
event with key `k`, and `none` for events without a `key` property
(a `click` `MouseEvent` has none, so `event.key` is `undefined`). -/
structure Event where
  key : Option String

/-- Serialization of one task, `script.js` lines 85–88: one `{text, completed}` object per task item. -/
def taskToJson (t : Task) : Json :=
  Json.obj [("text", Json.str t.text), ("completed", Json.bool t.completed)]

/-- The serialized array `JSON.stringify` receives in `saveTasks`. -/
def tasksJson (l : List Task) : Json :=
  Json.arr (l.map taskToJson)

/-- Function `saveTasks` (lines 83–106): reduce every task item to `{text, completed}`
in display order and overwrite `localStorage['tasks']` with the array. -/
def saveTasks (st : AppState) : AppState :=
  { st with store := some (tasksJson st.tasks) }

/-- One iteration of the `forEach` in `loadTasks` (lines 116–143): read
`task.text` (template literal, before appending), then `task.completed`
(truthiness decides the `completed` class). Reading a property of a `null`
entry throws. -/
def loadTaskEntry (task : Json) : Except JsError Task := do
  let textProp ← jsGetProp task "text"
  let completedProp ← jsGetProp task "completed"
  pure { text := jsPropToString textProp,
         completed := (completedProp.map truthy).getD false }

/-- The `forEach` loop of `loadTasks`: entries in array order, aborting at
the first thrown error. -/
def loadTaskEntries : List Json → Except JsError (List Task)
  | [] => .ok []
  | v :: vs => do
    let t ← loadTaskEntry v
    let ts ← loadTaskEntries vs
    pure (t :: ts)

/-- Function `loadTasks` (lines 111–144): `JSON.parse(localStorage.getItem('tasks')) || []`
then `tasks.forEach(...)`. An absent key gives `JSON.parse(null)`, i.e. the
value `null`, so `|| []` replaces every falsy parse result by `[]`; calling
`forEach` on a truthy non-array throws `TypeError`. -/
def loadTasks (store : Option Json) : Except JsError (List Task) :=
  let parsed := store.getD Json.null
  let tasks := if truthy parsed then parsed else Json.arr []
  match tasks with
  | Json.arr entries => loadTaskEntries entries
  | _ => .error .typeError

/-- Function `addTask` (lines 23–56): guarded by `event.key === 'Enter'`; trims the
input, returns on empty, otherwise appends a fresh task item (no `completed`
class), clears the input, and calls `saveTasks`. -/
def addTask (event : Event) (st : AppState) : AppState :=
  if event.key = some "Enter" then
    let taskText := jsTrim st.input
    if taskText = "" then st
    else
      saveTasks { st with
        tasks := st.tasks ++ [{ text := taskText, completed := false }],
        input := "" }
  else st

/-- Function `deleteTask` (lines 61–67): remove the task item at position `i` from
the list and call `saveTasks`. In the DOM the item is `this.parentElement`
of the clicked delete button, always a present child; the index is its
position. -/
def deleteTask (i : Nat) (st : AppState) : AppState :=
  saveTasks { st with tasks := st.tasks.eraseIdx i }

/-- Function `toggleComplete` (lines 72–78): toggle the `completed` class of the task
item at position `i` and call `saveTasks`. As with `deleteTask`, the item is
the clicked button's parent and is present; the out-of-range case cannot
arise in the DOM. -/
def toggleComplete (i : Nat) (st : AppState) : AppState :=
  match st.tasks[i]? with
  | none => st
  | some t =>
      saveTasks { st with tasks := st.tasks.set i { t with completed := !t.completed } }

/-- Auxiliary loop of `findTaskItemByText` (lines 222–231), tracking the
current index. -/
def findTaskItemByTextAux (text : String) : Nat → List Task → Option Nat
  | _, [] => none
  | i, t :: ts => if t.text = text then some i else findTaskItemByTextAux text (i + 1) ts

/-- Function `findTaskItemByText` (lines 222–231): scan the task items in display
order and return the first whose `<span>` text equals `text` (as an index,
the model's stand-in for an element reference), or `none`. -/
def findTaskItemByText (text : String) (tasks : List Task) : Option Nat :=
  findTaskItemByTextAux text 0 tasks

/-- The DOM `insertBefore` move (`parent.insertBefore(node, ref)`) on a list
of children, with `node` the child at index `d` and `ref` the child at index
`r` (`none` = insert at the end). Per the DOM pre-insertion algorithm, when
the reference child is the node itself the reference becomes the node's next
sibling; the node is then removed from its old position and inserted before
the reference. -/
def domInsertBefore (l : List Task) (d : Nat) (r : Option Nat) : List Task :=
  match l[d]? with
  | none => l
  | some node =>
    let ref := if r = some d then (if d + 1 < l.length then some (d + 1) else none) else r
    let rest := l.eraseIdx d
    match ref with
    | none => rest ++ [node]
    | some t => rest.insertIdx (if d < t then t - 1 else t) node

/-- Function `handleDrop` (lines 188–215): resolve the dragged item by first text
match, take the drop target (`event.target.closest('li')`, an existing item
or `none`); if both resolve, move the dragged item before the target when
`event.clientY` is above the target's vertical midpoint
(`rect.top + clientHeight / 2`), otherwise before the target's next sibling
(`none` when the target is last), then call `saveTasks`. Otherwise do
nothing. `targetTop` and `targetHeight` are the target's box geometry,
supplied by the layout. -/
def handleDrop (clientY targetTop targetHeight : ℚ) (draggedText : String)
    (dropTarget : Option Nat) (st : AppState) : AppState :=
  match findTaskItemByText draggedText st.tasks, dropTarget with
  | some d, some t =>
    let tasks' :=
      if clientY < targetTop + targetHeight / 2 then
        domInsertBefore st.tasks d (some t)
      else
        domInsertBefore st.tasks d (if t + 1 < st.tasks.length then some (t + 1) else none)
    saveTasks { st with tasks := tasks' }
  | _, _ => st

/-! ## Helper lemmas -/

/-- Deserializing one serialized task recovers it. -/
theorem loadTaskEntry_taskToJson (t : Task) : loadTaskEntry (taskToJson t) = .ok t :=
  rfl

/-- Deserializing the serialized array recovers the task list. -/
theorem loadTaskEntries_map (L : List Task) :
    loadTaskEntries (L.map taskToJson) = .ok L := by
  induction L with
  | nil => rfl
  | cons t ts ih =>
      simp only [List.map_cons, loadTaskEntries, loadTaskEntry_taskToJson, ih]
      rfl

/-! ## Claims -/

/-- Claim C1. Round-trip law: persisting the ordered task sequence and then
restoring it yields a sequence equal to the original, preserving order, each
task's text, and each task's completed flag. -/
theorem persist_restore_roundtrip (st : AppState) :
    loadTasks (saveTasks st).store = .ok st.tasks := by
  simp only [saveTasks, loadTasks, tasksJson, Option.getD, truthy, if_pos]
  exact loadTaskEntries_map st.tasks

/-- Claim C2, counterexample. A stored value that is structurally different
from a JSON array of `{text, completed}` objects does not always restore to
the empty list without error: an array containing the string `"hi"` restores
to a one-task list with text `"undefined"`, and the number `5` (truthy,
non-array) makes the restore throw a `TypeError` (`5.forEach` is not a
function), which is uncaught in `loadTasks`. -/
theorem loadTasks_not_fail_open_counterexample :
    loadTasks (some (Json.arr [Json.str "hi"]))
      = .ok [{ text := "undefined", completed := false }] ∧
    loadTasks (some (Json.num 5)) = .error .typeError := by
  constructor <;> rfl

/-- Claim C2, amended. If the fixed key is absent, or its parsed value is a
falsy JSON value (`null`, `false`, `0`, `""`), the restore yields the empty
task list with no error. A truthy non-array value instead throws an uncaught
`TypeError`, and an array value is processed entry by entry in order (each
entry coerced: a missing `text` property renders as `"undefined"`, `completed`
is the property's truthiness, a `null` entry throws) rather than being
treated as empty. -/
theorem loadTasks_fails_open_on_falsy :
    loadTasks none = .ok [] ∧
    (∀ v : Json, truthy v = false → loadTasks (some v) = .ok []) ∧
    (∀ v : Json, truthy v = true → (∀ l : List Json, v ≠ Json.arr l) →
      loadTasks (some v) = .error .typeError) ∧
    (∀ entries : List Json, loadTasks (some (Json.arr entries))
      = loadTaskEntries entries) := by
  refine ⟨rfl, ?_, ?_, ?_⟩
  · intro v hv
    simp [loadTasks, hv, loadTaskEntries]
  · intro v hv hna
    cases v with
    | arr l => exact absurd rfl (hna l)
    | null => simp [truthy] at hv
    | bool b => simp [loadTasks, hv]
    | num n => simp [loadTasks, hv]
    | str s => simp [loadTasks, hv]
    | obj fields => simp [loadTasks, hv]
  · intro entries
    simp [loadTasks, truthy]

/-- Claim C2, amended, witness at the falsy value `false`. -/
theorem loadTasks_fails_open_on_falsy_witness :
    truthy (Json.bool false) = false ∧ loadTasks (some (Json.bool false)) = .ok [] :=
  ⟨rfl, loadTasks_fails_open_on_falsy.2.1 (Json.bool false) rfl⟩

/-- Claim C3. On an Enter keyup with a non-empty-after-trimming input,
`addTask` appends exactly one new task with `completed = false` at the end of
the sequence (length grows by one, every existing task and its position
unchanged), clears the input field, and persists the updated sequence. -/
theorem addTask_appends (ev : Event) (st : AppState)
    (hk : ev.key = some "Enter") (hne : jsTrim st.input ≠ "") :
    (addTask ev st).tasks = st.tasks ++ [{ text := jsTrim st.input, completed := false }] ∧
    (addTask ev st).tasks.length = st.tasks.length + 1 ∧
    (∀ j, j < st.tasks.length → (addTask ev st).tasks[j]? = st.tasks[j]?) ∧
    (addTask ev st).input = "" ∧
    (addTask ev st).store = some (tasksJson (addTask ev st).tasks) := by
  have h : addTask ev st = saveTasks { st with
      tasks := st.tasks ++ [{ text := jsTrim st.input, completed := false }],
      input := "" } := by
    unfold addTask
    rw [hk, if_pos rfl, if_neg hne]
  refine ⟨by rw [h]; rfl, ?_, ?_, by rw [h]; rfl, by rw [h]; rfl⟩
  · rw [h]
    simp [saveTasks]
  · intro j hj
    rw [h]
    exact List.getElem?_append_left hj

/-- Claim C3, witness: adding `" hi "` to a one-task list. -/
theorem addTask_appends_witness :
    (⟨some "Enter"⟩ : Event).key = some "Enter" ∧
    jsTrim (⟨[⟨"a", true⟩], " hi ", none⟩ : AppState).input ≠ "" ∧
    (addTask ⟨some "Enter"⟩ ⟨[⟨"a", true⟩], " hi ", none⟩).tasks
      = [⟨"a", true⟩, ⟨"hi", false⟩] := by
  refine ⟨rfl, by decide, ?_⟩
  have h := addTask_appends ⟨some "Enter"⟩ ⟨[⟨"a", true⟩], " hi ", none⟩ rfl (by decide)
  rw [h.1]
  rfl

/-- Claim C4. When the trimmed input is empty (for instance `""` or `"   "`),
`addTask` is a no-op: the task sequence, the input field, and the persisted
store are all unchanged and nothing is thrown. -/
theorem addTask_empty_input_noop (ev : Event) (st : AppState)
    (h : jsTrim st.input = "") : addTask ev st = st := by
  unfold addTask
  split
  · simp [h]
  · rfl

/-- Claim C4, witness at input `"   "` on an Enter keyup. -/
theorem addTask_empty_input_noop_witness :
    jsTrim (⟨[⟨"a", false⟩], "   ", none⟩ : AppState).input = "" ∧
    addTask ⟨some "Enter"⟩ ⟨[⟨"a", false⟩], "   ", none⟩
      = ⟨[⟨"a", false⟩], "   ", none⟩ :=
  ⟨by decide, addTask_empty_input_noop ⟨some "Enter"⟩ _ (by decide)⟩

/-- Claim C5. Toggling the same task twice restores its completed flag and
the whole state, persisted store included, provided the store was in sync
with the sequence (the invariant the app maintains); each single toggle
flips exactly the targeted task's flag, leaves every other task unchanged,
and writes the store. -/
theorem toggleComplete_double_inverse (st : AppState) (i : Nat)
    (hi : i < st.tasks.length) (hs : st.store = some (tasksJson st.tasks)) :
    toggleComplete i (toggleComplete i st) = st ∧
    (toggleComplete i st).tasks[i]?
      = st.tasks[i]?.map (fun t => { t with completed := !t.completed }) ∧
    (∀ j, j ≠ i → (toggleComplete i st).tasks[j]? = st.tasks[j]?) ∧
    (toggleComplete i st).store = some (tasksJson (toggleComplete i st).tasks) := by
  obtain ⟨L, inp, sto⟩ := st
  simp only at hi hs ⊢
  have ht : L[i]? = some (L[i]) := List.getElem?_eq_getElem hi
  have h1 : toggleComplete i ⟨L, inp, sto⟩
      = saveTasks ⟨L.set i { L[i] with completed := !(L[i]).completed }, inp, sto⟩ := by
    unfold toggleComplete
    rw [ht]
  have hset1 : (L.set i { L[i] with completed := !(L[i]).completed })[i]?
      = some { L[i] with completed := !(L[i]).completed } :=
    List.getElem?_set_self (by simpa using hi)
  have h2 : toggleComplete i (toggleComplete i ⟨L, inp, sto⟩)
      = saveTasks ⟨L.set i (L[i]), inp,
          some (tasksJson (L.set i { L[i] with completed := !(L[i]).completed }))⟩ := by
    rw [h1]
    unfold toggleComplete
    simp only [saveTasks]
    rw [hset1]
    simp only [List.set_set, Bool.not_not]
  have hback : L.set i (L[i]) = L := by
    apply List.ext_getElem?
    intro n
    by_cases hn : n = i
    · subst hn
      rw [List.getElem?_set_self hi, ht]
    · exact List.getElem?_set_ne (fun h => hn h.symm)
  refine ⟨?_, ?_, ?_, ?_⟩
  · rw [h2, hback]
    simp [saveTasks, hs]
  · rw [h1, ht]
    simpa [saveTasks] using hset1
  · intro j hj
    rw [h1]
    exact List.getElem?_set_ne (fun h => hj h.symm)
  · rw [h1]
    rfl

/-- Claim C5, witness: toggling task 0 of a synced one-task state twice. -/
theorem toggleComplete_double_inverse_witness :
    (0 : Nat) < ([⟨"a", false⟩] : List Task).length ∧
    toggleComplete 0 (toggleComplete 0 ⟨[⟨"a", false⟩], "", some (tasksJson [⟨"a", false⟩])⟩)
      = ⟨[⟨"a", false⟩], "", some (tasksJson [⟨"a", false⟩])⟩ :=
  ⟨by decide,
    (toggleComplete_double_inverse ⟨[⟨"a", false⟩], "", some (tasksJson [⟨"a", false⟩])⟩ 0
      (by decide) rfl).1⟩

/-- Claim C6. Deleting the task at position `i` removes exactly that task:
the length drops by one, every task before `i` keeps its position, every
task after `i` shifts down by one (relative order, texts and completed flags
unchanged), and the updated sequence is persisted. -/
theorem deleteTask_removes_exactly (st : AppState) (i : Nat)
    (hi : i < st.tasks.length) :
    (deleteTask i st).tasks = st.tasks.take i ++ st.tasks.drop (i + 1) ∧
    (deleteTask i st).tasks.length = st.tasks.length - 1 ∧
    (∀ j, j < i → (deleteTask i st).tasks[j]? = st.tasks[j]?) ∧
    (∀ j, i ≤ j → (deleteTask i st).tasks[j]? = st.tasks[j + 1]?) ∧
    (deleteTask i st).store = some (tasksJson (deleteTask i st).tasks) := by
  refine ⟨List.eraseIdx_eq_take_drop_succ st.tasks i, List.length_eraseIdx_of_lt hi,
    ?_, ?_, rfl⟩
  · intro j hj
    exact List.getElem?_eraseIdx_of_lt st.tasks i j hj
  · intro j hj
    exact List.getElem?_eraseIdx_of_ge st.tasks i j hj

/-- Claim C6, witness: deleting the middle task of a three-task list. -/
theorem deleteTask_removes_exactly_witness :
    (1 : Nat) < ([⟨"a", false⟩, ⟨"b", true⟩, ⟨"c", false⟩] : List Task).length ∧
    (deleteTask 1 ⟨[⟨"a", false⟩, ⟨"b", true⟩, ⟨"c", false⟩], "", none⟩).tasks
      = [⟨"a", false⟩, ⟨"c", false⟩] := by
  refine ⟨by decide, ?_⟩
  have h := deleteTask_removes_exactly ⟨[⟨"a", false⟩, ⟨"b", true⟩, ⟨"c", false⟩], "", none⟩ 1
    (by decide)
  rw [h.1]
  rfl

/-- Helper lemma: `findTaskItemByTextAux` started at offset `n` returns `n` plus the
position of the first matching task, and nothing before it matches. -/
theorem findTaskItemByTextAux_first (text : String) :
    ∀ (l : List Task) (n i : Nat) (t : Task),
      l[i]? = some t → t.text = text →
      ∃ k, findTaskItemByTextAux text n l = some (n + k) ∧ k ≤ i ∧
        (∃ u, l[k]? = some u ∧ u.text = text) ∧
        (∀ m u, m < k → l[m]? = some u → u.text ≠ text)
  | [], n, i, t, h, _ => by simp at h
  | a :: l, n, i, t, h, htext => by
    by_cases ha : a.text = text
    · refine ⟨0, ?_, Nat.zero_le _, ⟨a, by simp, ha⟩, ?_⟩
      · simp [findTaskItemByTextAux, ha]
      · intro m u hm
        omega
    · cases i with
      | zero =>
          simp only [List.getElem?_cons_zero, Option.some.injEq] at h
          subst h
          exact absurd htext ha
      | succ i =>
          obtain ⟨k, hk, hki, ⟨u, hu, hut⟩, hmin⟩ :=
            findTaskItemByTextAux_first text l (n + 1) i t (by simpa using h) htext
          refine ⟨k + 1, ?_, by omega, ⟨u, by simpa using hu, hut⟩, ?_⟩
          · simp only [findTaskItemByTextAux]
            rw [if_neg ha, hk]
            simp only [Option.some.injEq]
            omega
          · intro m u' hm hm'
            cases m with
            | zero =>
                simp only [List.getElem?_cons_zero, Option.some.injEq] at hm'
                subst hm'
                exact ha
            | succ m =>
                exact hmin m u' (by omega) (by simpa using hm')

/-- Claim C9. When two or more tasks share the same text, a drag payload
equal to that text resolves to the first task in display order whose text
matches: `findTaskItemByText` returns an index no later than any match,
matching the payload, with no earlier match — the first-match tie-break is
deterministic. -/
theorem duplicate_text_first_match (tasks : List Task) (p : String) (i j : Nat)
    (hij : i < j) (ti tj : Task)
    (hi : tasks[i]? = some ti) (hj : tasks[j]? = some tj)
    (hti : ti.text = p) (htj : tj.text = p) :
    ∃ k, findTaskItemByText p tasks = some k ∧ k ≤ i ∧
      (∃ u, tasks[k]? = some u ∧ u.text = p) ∧
      (∀ m u, m < k → tasks[m]? = some u → u.text ≠ p) := by
  obtain ⟨k, hk, hki, hu, hmin⟩ := findTaskItemByTextAux_first p tasks 0 i ti hi hti
  exact ⟨k, by simpa [findTaskItemByText] using hk, hki, hu, hmin⟩

/-- Claim C9, witness: two tasks with text `"x"` at positions 1 and 2; the
resolution picks an index ≤ 1 with a match and no earlier match. -/
theorem duplicate_text_first_match_witness :
    (1 : Nat) < 2 ∧
    ∃ k, findTaskItemByText "x" [⟨"y", false⟩, ⟨"x", false⟩, ⟨"x", true⟩] = some k ∧
      k ≤ 1 ∧
      (∃ u, ([⟨"y", false⟩, ⟨"x", false⟩, ⟨"x", true⟩] : List Task)[k]? = some u ∧
        u.text = "x") ∧
      (∀ m u, m < k →
        ([⟨"y", false⟩, ⟨"x", false⟩, ⟨"x", true⟩] : List Task)[m]? = some u →
        u.text ≠ "x") :=
  ⟨by decide,
    duplicate_text_first_match [⟨"y", false⟩, ⟨"x", false⟩, ⟨"x", true⟩] "x" 1 2
      (by decide) ⟨"x", false⟩ ⟨"x", true⟩ rfl rfl rfl rfl⟩

/-- Reading at the insertion point of `insertIdx`. -/
theorem insertIdx_getElem?_self {α : Type} (l : List α) (x : α) (n : Nat)
    (h : n ≤ l.length) : (l.insertIdx n x)[n]? = some x := by
  rw [List.getElem?_eq_getElem (by rw [List.length_insertIdx n l h]; omega)]
  exact congrArg some (List.getElem_insertIdx_self l x n h)

/-- Reading immediately after the insertion point of `insertIdx`. -/
theorem insertIdx_getElem?_succ_self {α : Type} (l : List α) (x : α) (n : Nat)
    (h : n < l.length) : (l.insertIdx n x)[n + 1]? = l[n]? := by
  rw [List.getElem?_eq_getElem (by rw [List.length_insertIdx n l (by omega)]; omega),
    List.getElem?_eq_getElem h]
  exact congrArg some (List.getElem_insertIdx_add_succ l x n 0 (by omega))

/-- Reading strictly before the insertion point of `insertIdx`. -/
theorem insertIdx_getElem?_of_lt {α : Type} (l : List α) (x : α) (n k : Nat)
    (hk : k < n) (h : k < l.length) : (l.insertIdx n x)[k]? = l[k]? := by
  rw [List.getElem?_eq_getElem (Nat.lt_of_lt_of_le h (List.length_le_length_insertIdx l x n)),
    List.getElem?_eq_getElem h]
  exact congrArg some (List.getElem_insertIdx_of_lt l x n k hk h)

/-- Moving the child at `d` before a distinct reference child at `t`:
remove, then insert at the target's shifted position. -/
theorem domInsertBefore_some (l : List Task) (d t : Nat) (dr : Task)
    (hd : l[d]? = some dr) (hne : d ≠ t) :
    domInsertBefore l d (some t)
      = (l.eraseIdx d).insertIdx (if d < t then t - 1 else t) dr := by
  unfold domInsertBefore
  rw [hd]
  simp only
  rw [if_neg (fun hh => hne (Option.some.inj hh).symm)]

/-- Moving the child at `d` before the next sibling of a distinct reference
child at `t` (i.e. after it): remove, then insert one past the target's
shifted position. -/
theorem domInsertBefore_next (l : List Task) (d t : Nat) (dr : Task)
    (hd : l[d]? = some dr) (ht : t < l.length) (hne : d ≠ t) :
    domInsertBefore l d (if t + 1 < l.length then some (t + 1) else none)
      = (l.eraseIdx d).insertIdx ((if d < t then t - 1 else t) + 1) dr := by
  obtain ⟨hdlen, -⟩ := List.getElem?_eq_some_iff.mp hd
  have hrest : (l.eraseIdx d).length = l.length - 1 := List.length_eraseIdx_of_lt hdlen
  unfold domInsertBefore
  rw [hd]
  simp only
  by_cases h1 : t + 1 < l.length
  · rw [if_pos h1]
    by_cases h2 : d = t + 1
    · rw [if_pos (by rw [h2])]
      by_cases h3 : d + 1 < l.length
      · rw [if_pos h3]
        have key : (if d < d + 1 then d + 1 - 1 else d + 1)
            = (if d < t then t - 1 else t) + 1 := by
          rw [if_pos (by omega), if_neg (by omega)]
          omega
        show List.insertIdx (if d < d + 1 then d + 1 - 1 else d + 1) dr (l.eraseIdx d)
          = List.insertIdx ((if d < t then t - 1 else t) + 1) dr (l.eraseIdx d)
        rw [key]
      · rw [if_neg h3]
        have key : (if d < t then t - 1 else t) + 1 = (l.eraseIdx d).length := by
          rw [if_neg (by omega)]
          omega
        show l.eraseIdx d ++ [dr]
          = List.insertIdx ((if d < t then t - 1 else t) + 1) dr (l.eraseIdx d)
        rw [key, List.insertIdx_length_self]
    · rw [if_neg (fun hh => h2 (Option.some.inj hh).symm)]
      have key : (if d < t + 1 then t + 1 - 1 else t + 1)
          = (if d < t then t - 1 else t) + 1 := by
        by_cases hdt : d < t
        · rw [if_pos (by omega), if_pos hdt]
          omega
        · rw [if_neg (by omega), if_neg hdt]
      show List.insertIdx (if d < t + 1 then t + 1 - 1 else t + 1) dr (l.eraseIdx d)
        = List.insertIdx ((if d < t then t - 1 else t) + 1) dr (l.eraseIdx d)
      rw [key]
  · rw [if_neg h1]
    rw [if_neg (fun hh : (none : Option Nat) = some d => Option.noConfusion hh)]
    have key : (if d < t then t - 1 else t) + 1 = (l.eraseIdx d).length := by
      rw [if_pos (by omega)]
      omega
    show l.eraseIdx d ++ [dr]
      = List.insertIdx ((if d < t then t - 1 else t) + 1) dr (l.eraseIdx d)
    rw [key, List.insertIdx_length_self]

/-- Claim C7. With a resolvable dragged task (first text match at `d`) and a
distinct drop-target task at `t`, `handleDrop` places the dragged task
immediately before the target when the pointer's y-coordinate is above the
target's vertical midpoint and immediately after it otherwise, then persists;
in particular on `[A, B, C]`, dragging `A` onto `C` with the pointer below
`C`'s midpoint yields `[B, C, A]`, and dragging `C` onto `A` with the pointer
above `A`'s midpoint yields `[C, A, B]`. -/
theorem handleDrop_midpoint_policy :
    (∀ (y top hgt : ℚ) (dt : String) (st : AppState) (d t : Nat) (dr tg : Task),
      findTaskItemByText dt st.tasks = some d →
      st.tasks[d]? = some dr → st.tasks[t]? = some tg → d ≠ t →
      ((y < top + hgt / 2 →
        (handleDrop y top hgt dt (some t) st).tasks
          = (st.tasks.eraseIdx d).insertIdx (if d < t then t - 1 else t) dr ∧
        (handleDrop y top hgt dt (some t) st).tasks[if d < t then t - 1 else t]?
          = some dr ∧
        (handleDrop y top hgt dt (some t) st).tasks[(if d < t then t - 1 else t) + 1]?
          = some tg) ∧
      (¬ y < top + hgt / 2 →
        (handleDrop y top hgt dt (some t) st).tasks
          = (st.tasks.eraseIdx d).insertIdx ((if d < t then t - 1 else t) + 1) dr ∧
        (handleDrop y top hgt dt (some t) st).tasks[if d < t then t - 1 else t]?
          = some tg ∧
        (handleDrop y top hgt dt (some t) st).tasks[(if d < t then t - 1 else t) + 1]?
          = some dr) ∧
      (handleDrop y top hgt dt (some t) st).store
        = some (tasksJson (handleDrop y top hgt dt (some t) st).tasks))) ∧
    (∀ (A B C : Task) (y top hgt : ℚ) (inp : String) (s₀ : Option Json),
      (¬ y < top + hgt / 2 →
        (handleDrop y top hgt A.text (some 2) ⟨[A, B, C], inp, s₀⟩).tasks = [B, C, A]) ∧
      (A.text ≠ C.text → B.text ≠ C.text → y < top + hgt / 2 →
        (handleDrop y top hgt C.text (some 0) ⟨[A, B, C], inp, s₀⟩).tasks = [C, A, B])) := by
  constructor
  · intro y top hgt dt st d t dr tg hfind hd htg hne
    obtain ⟨hdlen, -⟩ := List.getElem?_eq_some_iff.mp hd
    obtain ⟨htlen, -⟩ := List.getElem?_eq_some_iff.mp htg
    have hrest : (st.tasks.eraseIdx d).length = st.tasks.length - 1 :=
      List.length_eraseIdx_of_lt hdlen
    have hrest_t : (st.tasks.eraseIdx d)[if d < t then t - 1 else t]? = some tg := by
      by_cases hdt : d < t
      · rw [if_pos hdt, List.getElem?_eraseIdx_of_ge _ _ _ (by omega),
          show t - 1 + 1 = t from by omega]
        exact htg
      · rw [if_neg hdt, List.getElem?_eraseIdx_of_lt _ _ _ (by omega)]
        exact htg
    have ht'lt : (if d < t then t - 1 else t) < (st.tasks.eraseIdx d).length := by
      by_cases hdt : d < t
      · rw [if_pos hdt]
        omega
      · rw [if_neg hdt]
        omega
    have hred : handleDrop y top hgt dt (some t) st
        = saveTasks { st with tasks :=
            (if y < top + hgt / 2 then domInsertBefore st.tasks d (some t)
             else domInsertBefore st.tasks d
               (if t + 1 < st.tasks.length then some (t + 1) else none)) } := by
      unfold handleDrop
      rw [hfind]
    refine ⟨?_, ?_, by rw [hred]; rfl⟩
    · intro hy
      have htasks : (handleDrop y top hgt dt (some t) st).tasks
          = (st.tasks.eraseIdx d).insertIdx (if d < t then t - 1 else t) dr := by
        rw [hred]
        simp only [saveTasks, if_pos hy]
        exact domInsertBefore_some st.tasks d t dr hd hne
      refine ⟨htasks, ?_, ?_⟩
      · rw [htasks]
        exact insertIdx_getElem?_self _ dr _ (by omega)
      · rw [htasks, insertIdx_getElem?_succ_self _ dr _ ht'lt]
        exact hrest_t
    · intro hy
      have htasks : (handleDrop y top hgt dt (some t) st).tasks
          = (st.tasks.eraseIdx d).insertIdx ((if d < t then t - 1 else t) + 1) dr := by
        rw [hred]
        simp only [saveTasks, if_neg hy]
        exact domInsertBefore_next st.tasks d t dr hd htlen hne
      refine ⟨htasks, ?_, ?_⟩
      · rw [htasks, insertIdx_getElem?_of_lt _ dr _ _ (by omega) ht'lt]
        exact hrest_t
      · rw [htasks]
        exact insertIdx_getElem?_self _ dr _ (by omega)
  · intro A B C y top hgt inp s₀
    constructor
    · intro hy
      have hfind : findTaskItemByText A.text [A, B, C] = some 0 := by
        simp [findTaskItemByText, findTaskItemByTextAux]
      simp [handleDrop, hfind, if_neg hy, domInsertBefore, saveTasks]
    · intro hAC hBC hy
      have hfind : findTaskItemByText C.text [A, B, C] = some 2 := by
        simp [findTaskItemByText, findTaskItemByTextAux, hAC, hBC]
      simp [handleDrop, hfind, if_pos hy, domInsertBefore, saveTasks]

/-- Claim C7, witness: the concrete `[A, B, C]` drag of `A` onto `C` with the
pointer below the midpoint (`y = 100`, box top `0`, height `20`). -/
theorem handleDrop_midpoint_policy_witness :
    ¬ ((100 : ℚ) < 0 + 20 / 2) ∧
    (handleDrop 100 0 20 "A" (some 2)
        ⟨[⟨"A", false⟩, ⟨"B", false⟩, ⟨"C", true⟩], "", none⟩).tasks
      = [⟨"B", false⟩, ⟨"C", true⟩, ⟨"A", false⟩] :=
  ⟨by norm_num,
    (handleDrop_midpoint_policy.2 ⟨"A", false⟩ ⟨"B", false⟩ ⟨"C", true⟩ 100 0 20 "" none).1
      (by norm_num)⟩

/-- Claim C8. After every mutating operation that acts (add on Enter with
non-empty trimmed input, delete, toggle, resolvable reorder), the persisted
value under the fixed key equals the in-memory ordered sequence, each task
reduced to `{text, completed}` in display order. -/
theorem mutation_persists_store :
    (∀ (ev : Event) (st : AppState), ev.key = some "Enter" → jsTrim st.input ≠ "" →
      (addTask ev st).store = some (tasksJson (addTask ev st).tasks)) ∧
    (∀ (i : Nat) (st : AppState),
      (deleteTask i st).store = some (tasksJson (deleteTask i st).tasks)) ∧
    (∀ (i : Nat) (st : AppState), i < st.tasks.length →
      (toggleComplete i st).store = some (tasksJson (toggleComplete i st).tasks)) ∧
    (∀ (y top hgt : ℚ) (dt : String) (t : Nat) (d : Nat) (st : AppState),
      findTaskItemByText dt st.tasks = some d →
      (handleDrop y top hgt dt (some t) st).store
        = some (tasksJson (handleDrop y top hgt dt (some t) st).tasks)) := by
  refine ⟨?_, fun i st => rfl, ?_, ?_⟩
  · intro ev st hk hne
    unfold addTask
    rw [hk, if_pos rfl, if_neg hne]
    rfl
  · intro i st hi
    unfold toggleComplete
    rw [List.getElem?_eq_getElem hi]
    rfl
  · intro y top hgt dt t d st hfind
    unfold handleDrop
    rw [hfind]
    rfl

/-- Claim C8, witness: toggling the only task of a one-task state leaves the
store equal to the serialized sequence. -/
theorem mutation_persists_store_witness :
    (0 : Nat) < (⟨[⟨"a", false⟩], "", none⟩ : AppState).tasks.length ∧
    (toggleComplete 0 ⟨[⟨"a", false⟩], "", none⟩).store
      = some (tasksJson (toggleComplete 0 ⟨[⟨"a", false⟩], "", none⟩).tasks) :=
  ⟨by decide, mutation_persists_store.2.2.1 0 ⟨[⟨"a", false⟩], "", none⟩ (by decide)⟩

/-- Claim C10. `addTask` mutates nothing unless the triggering event's `key`
equals `"Enter"`: for a click on the add button (whose `MouseEvent` has no
`key` property) and for any other keyup, the task sequence, the input field,
and the persisted store are unchanged. -/
theorem addTask_requires_enter_key (ev : Event) (st : AppState)
    (h : ev.key ≠ some "Enter") : addTask ev st = st := by
  unfold addTask
  exact if_neg h

/-- Claim C10, witness: a click event (no `key` property) with a non-empty
input changes nothing. -/
theorem addTask_requires_enter_key_witness :
    (⟨none⟩ : Event).key ≠ some "Enter" ∧
    addTask ⟨none⟩ ⟨[], "buy milk", none⟩ = ⟨[], "buy milk", none⟩ :=
  ⟨by decide, addTask_requires_enter_key ⟨none⟩ _ (by decide)⟩

end TodoApp
